import Mathlib

/-!
Verification of the SignFlow transcription/translation/sign-resolution
pipeline against its natural-language specification.

The development shallowly embeds the relevant JavaScript sources:
  backend/src/utils/text.js          (normalizeSentence, extractKeywords)
  backend/src/services/qdrantClient.js (cosineSimilarity, SignRepository)
  backend/src/services/pipeline.js     (SignPipeline, withAssetUrls, buildAssetUrl)
  backend/src/services/geminiClient.js (GeminiClient.transcribeAudio, callLocalStt)
  backend/src/config.js                (configuration defaults)

JavaScript numbers are modelled as real numbers, strings as Lean strings
(the inputs of interest are ASCII), and fallible external calls as
explicit outcome parameters.
-/

namespace SignFlow

/-! ### JavaScript primitives

Small helpers modelling JavaScript truthiness idioms that the sources
use: `a || b` on strings and numbers (empty string and zero are falsy)
and `a ?? b` on possibly-absent values.
-/

/-- Models the JavaScript idiom `s || d` where `s : string` may be absent:
`undefined`, `null` and the empty string all fall back to `d`. -/
def jsOrString (s : Option String) (d : String) : String :=
  match s with
  | none => d
  | some v => if v = "" then d else v

/-- Models the JavaScript idiom `n || d` for a possibly-absent number:
`undefined`, `null` and `0` all fall back to `d`. -/
def jsOrNat (n : Option Nat) (d : Nat) : Nat :=
  match n with
  | none => d
  | some v => if v = 0 then d else v

/-- Models the JavaScript idiom `x ?? d` (nullish coalescing). -/
def jsCoalesce {α : Type} (x : Option α) (d : α) : α :=
  x.getD d

/-- Models JavaScript string falsiness: `!s` is true for a missing string
and for the empty string. -/
def jsFalsyString (s : Option String) : Bool :=
  match s with
  | none => true
  | some v => v = ""

/-- `String.prototype.startsWith`. -/
def jsStartsWith (s pre : String) : Bool :=
  pre.toList.isPrefixOf s.toList

/-! ### text.js — normalizeSentence

`normalizeSentence` is
`text.replace(/[^\w\s'-]/gi, ' ').replace(/\s+/g, ' ').trim().toLowerCase()`.
It is embedded stage by stage on `List Char`.
-/

/-- JavaScript regex `\w`: ASCII letters (codes 65-90 and 97-122),
digits (48-57) and underscore (95). -/
def isWordChar (c : Char) : Bool :=
  decide (65 ≤ c.toNat ∧ c.toNat ≤ 90) || decide (97 ≤ c.toNat ∧ c.toNat ≤ 122) ||
  decide (48 ≤ c.toNat ∧ c.toNat ≤ 57) || decide (c.toNat = 95)

/-- JavaScript regex `\s`, restricted to its ASCII members: space (32),
tab (9), line feed (10), carriage return (13), vertical tab (11), form
feed (12).  A Unicode whitespace character outside this set is sent to a
plain space by the first rewrite below; since the second rewrite
collapses every whitespace run to one space, the composed normalizer
agrees with the JavaScript one on all inputs. -/
def isJsSpace (c : Char) : Bool :=
  decide (c.toNat = 32) || decide (c.toNat = 9) || decide (c.toNat = 10) ||
  decide (c.toNat = 13) || decide (c.toNat = 11) || decide (c.toNat = 12)

/-- First rewrite: `replace(/[^\w\s'-]/gi, ' ')`.  Every character that is
not a word character, whitespace, apostrophe (code 39) or hyphen (code 45)
becomes a space. -/
def sanitizeChars (l : List Char) : List Char :=
  l.map (fun c =>
    if isWordChar c || isJsSpace c || decide (c.toNat = 39) || decide (c.toNat = 45) then c
    else ' ')

/-- Second rewrite: `replace(/\s+/g, ' ')`.  Each maximal run of
whitespace becomes a single space: inside a run all but the last
character are dropped, and the last one is emitted as a plain space. -/
def collapseSpaces : List Char → List Char
  | [] => []
  | [c] => if isJsSpace c then [' '] else [c]
  | c₁ :: c₂ :: rest =>
    if isJsSpace c₁ && isJsSpace c₂ then collapseSpaces (c₂ :: rest)
    else (if isJsSpace c₁ then ' ' else c₁) :: collapseSpaces (c₂ :: rest)

/-- `String.prototype.trim`: drop whitespace from both ends. -/
def trimChars (l : List Char) : List Char :=
  ((l.dropWhile isJsSpace).reverse.dropWhile isJsSpace).reverse

/-- `String.prototype.toLowerCase` on one character.  Only the ASCII
range matters here: after the first rewrite every surviving character is
ASCII. -/
def jsToLower (c : Char) : Char :=
  if 65 ≤ c.toNat ∧ c.toNat ≤ 90 then Char.ofNat (c.toNat + 32) else c

/-- `toLowerCase` over a whole string. -/
def lowerChars (l : List Char) : List Char :=
  l.map jsToLower

/-- The four stages of `normalizeSentence`, on character lists. -/
def normList (l : List Char) : List Char :=
  lowerChars (trimChars (collapseSpaces (sanitizeChars l)))

/-- `String.prototype.toLowerCase` (the sources only apply it to ASCII
keywords and gloss tokens). -/
def jsLower (s : String) : String :=
  ⟨lowerChars s.toList⟩

/-- `String.prototype.toUpperCase` on one character (ASCII range). -/
def jsToUpperChar (c : Char) : Char :=
  if 97 ≤ c.toNat ∧ c.toNat ≤ 122 then Char.ofNat (c.toNat - 32) else c

/-- `String.prototype.toUpperCase`. -/
def jsUpper (s : String) : String :=
  ⟨s.toList.map jsToUpperChar⟩

/-- `normalizeSentence(text)` from text.js. -/
def normalizeSentence (text : String) : String :=
  ⟨normList text.toList⟩

/-- Uppercase ASCII letters, the characters `toLowerCase` moves. -/
def isUpperAscii (c : Char) : Bool :=
  decide (65 ≤ c.toNat ∧ c.toNat ≤ 90)

/-- The shape of a fully normalized character list: every character is a
lowercase word character, an apostrophe, a hyphen or a space; no two
spaces are adjacent; and neither end is a space.  `normList` maps every
input into this set and fixes it, which gives idempotence. -/
def NormalShape (l : List Char) : Prop :=
  (∀ c ∈ l, (isWordChar c = true ∧ isUpperAscii c = false) ∨
    c.toNat = 39 ∨ c.toNat = 45 ∨ c = ' ') ∧
  List.Chain' (fun a b => ¬(isJsSpace a = true ∧ isJsSpace b = true)) l ∧
  (∀ c, l.head? = some c → isJsSpace c = false) ∧
  (∀ c, l.getLast? = some c → isJsSpace c = false)

/-! ### text.js — extractKeywords -/

/-- The fixed stopword set of text.js. -/
def STOPWORDS : List String :=
  ["a", "an", "the", "and", "or", "but", "if", "then", "so", "is", "are",
   "to", "for", "with", "on", "in", "of"]

/-- `String.prototype.split(' ')`: cut at every single space. -/
def splitOnSpaceAux : List Char → List Char → List String
  | [], cur => [⟨cur.reverse⟩]
  | c :: rest, cur =>
    if c = ' ' then ⟨cur.reverse⟩ :: splitOnSpaceAux rest []
    else splitOnSpaceAux rest (c :: cur)

/-- `normalized.split(' ')`. -/
def jsSplitOnSpace (s : String) : List String :=
  splitOnSpaceAux s.toList []

/-- `normalized.split(' ').filter(Boolean)`: the whitespace tokens of the
normalized text. -/
def tokensOf (text : String) : List String :=
  (jsSplitOnSpace (normalizeSentence text)).filter (fun t => t ≠ "")

/-- The `for (const token of tokens)` loop of `extractKeywords`: skip
stopwords, push unseen tokens, and stop once `keywords.length >= limit`
(the length test runs after the push, and is skipped by the stopword
`continue`). -/
def extractLoop (limit : Nat) : List String → List String → List String
  | [], acc => acc
  | tok :: rest, acc =>
    if STOPWORDS.contains tok then extractLoop limit rest acc
    else
      let acc' := if acc.contains tok then acc else acc ++ [tok]
      if limit ≤ acc'.length then acc' else extractLoop limit rest acc'

/-- `extractKeywords(text, limit = 12)` from text.js. -/
def extractKeywords (text : String) (limit : Nat := 12) : List String :=
  extractLoop limit (tokensOf text) []

/-! ### qdrantClient.js — the sign catalogue and the local similarity matcher

Scores are JavaScript numbers, modelled as real numbers; `Math.sqrt`
becomes `Real.sqrt`, so the scoring definitions are noncomputable.
-/

/-- One record of `data/signGlosses.json` (§3 SignRecord of the spec). -/
structure SignRecord where
  id : String
  gloss : String
  keywords : List String
  topics : List String
  embedding : List ℝ
  videoFile : String
  thumbnail : String
  durationMs : Nat

/-- The loop of `cosineSimilarity` runs over `min(vecA.length, vecB.length)`
indices; this is the part of `u` it reads when paired with `v`. -/
def truncTo (u v : List ℝ) : List ℝ :=
  u.take (min u.length v.length)

/-- `normA` / `normB` of `cosineSimilarity`: the sum of squares. -/
def sumSq (l : List ℝ) : ℝ :=
  (l.map (fun x => x ^ 2)).sum

/-- The `dot` accumulator of `cosineSimilarity`. -/
def dotProd (a b : List ℝ) : ℝ :=
  (List.zipWith (fun x y => x * y) a b).sum

/-- `cosineSimilarity(vecA, vecB)` from qdrantClient.js.  The guard
`if (!normA || !normB) return 0` returns 0 whenever either truncated
norm is zero. -/
noncomputable def cosineSimilarity (vecA vecB : List ℝ) : ℝ :=
  let dot := dotProd (truncTo vecA vecB) (truncTo vecB vecA)
  let normA := sumSq (truncTo vecA vecB)
  let normB := sumSq (truncTo vecB vecA)
  if normA = 0 ∨ normB = 0 then 0 else dot / (Real.sqrt normA * Real.sqrt normB)

/-- `keyword.charCodeAt(0)`, which the source divides by 255.  On the
empty string `charCodeAt` yields NaN, which propagates into `normA` and
makes the `!normA` guard fire, so `cosineSimilarity` returns 0 — the
same value the 0 used here produces through the `normA = 0` guard. -/
def charCodeAt0 (s : String) : ℝ :=
  match s.toList with
  | [] => 0
  | c :: _ => (c.toNat : ℝ)

/-- Does `pat` occur as a contiguous segment of `l`? -/
def listContainsSeg (pat : List Char) : List Char → Bool
  | [] => pat.isEmpty
  | c :: rest => pat.isPrefixOf (c :: rest) || listContainsSeg pat rest

/-- `String.prototype.includes`. -/
def jsIncludes (s pat : String) : Bool :=
  listContainsSeg pat.toList s.toList

/-- `keywordToVector(keyword)` from qdrantClient.js: the deterministic
placeholder vectorization. -/
noncomputable def keywordToVector (keyword : String) : List ℝ :=
  let normalized := jsLower keyword
  [(normalized.length : ℝ) / 10,
   charCodeAt0 normalized / 255,
   if jsIncludes normalized "ing" then 1 else 0]

/-- A JavaScript `Set` built from a list, read back in iteration order:
first occurrences are kept. -/
def dedupKeepFirst (l : List String) : List String :=
  l.foldl (fun acc k => if acc.contains k then acc else acc ++ [k]) []

/-- `new Set(keywords.map(kw => kw.toLowerCase()))` from `fallbackSearch`. -/
def keywordSetOf (keywords : List String) : List String :=
  dedupKeepFirst (keywords.map jsLower)

/-- The per-record score computed inside `SignRepository.fallbackSearch`:
`overlap * 0.7 + topicBoost + vectorScore * 0.3` where `topicBoost` is
`0.15` or `0` and `vectorScore` uses the vector of the first element of
the query keyword set (`[...keywordSet][0] || ''`). -/
noncomputable def fallbackScore (keywordSet : List String) (sign : SignRecord) : ℝ :=
  let overlap := (sign.keywords.filter (fun kw => keywordSet.contains kw)).length
  let topicBoost : ℝ := if sign.topics.any (fun topic => keywordSet.contains topic) then 0.15 else 0
  let vectorScore := cosineSimilarity (keywordToVector (keywordSet.headD "")) sign.embedding
  (overlap : ℝ) * 0.7 + topicBoost + vectorScore * 0.3

/-- One match of the Similarity Matcher contract (§4.3 MatchResult). -/
structure MatchResult where
  id : String
  gloss : String
  videoFile : String
  thumbnail : String
  durationMs : Nat
  score : ℝ

/-- Insert a scored record into a list sorted by descending score,
after every entry whose score is at least as large (JavaScript
`Array.prototype.sort` is stable). -/
noncomputable def insertScoredDesc (x : SignRecord × ℝ) :
    List (SignRecord × ℝ) → List (SignRecord × ℝ)
  | [] => [x]
  | y :: ys => if y.2 < x.2 then x :: y :: ys else y :: insertScoredDesc x ys

/-- Stable sort by descending score, modelling
`.sort((a, b) => b.score - a.score)`. -/
noncomputable def sortScoredDesc (l : List (SignRecord × ℝ)) : List (SignRecord × ℝ) :=
  l.foldl (fun acc x => insertScoredDesc x acc) []

/-- `SignRepository.fallbackSearch(keywords, topK)`: score every record,
drop scores `<= 0`, sort descending, truncate to `topK`, and project to
match results. -/
noncomputable def fallbackSearch (dataset : List SignRecord) (keywords : List String)
    (topK : Nat) : List MatchResult :=
  let keywordSet := keywordSetOf keywords
  let scored := dataset.map (fun sign => (sign, fallbackScore keywordSet sign))
  ((sortScoredDesc (scored.filter (fun entry => 0 < entry.2))).take topK).map
    (fun entry =>
      { id := entry.1.id, gloss := entry.1.gloss, videoFile := entry.1.videoFile,
        thumbnail := entry.1.thumbnail, durationMs := entry.1.durationMs, score := entry.2 })

/-- `SignRepository.searchByKeywords`.  With the default configuration
`qdrant.url` is empty, so `hasQdrant` is false and the local strategy
serves every search; on any transport failure of the remote strategy the
same local call is the mandatory fallback. -/
noncomputable def searchByKeywords (dataset : List SignRecord) (keywords : List String)
    (topK : Nat) : List MatchResult :=
  if keywords.isEmpty then [] else fallbackSearch dataset keywords topK

/-- `SignRepository.getSignByGloss(gloss)`: case-insensitive exact gloss
match, falling back to an identifier match; `null` when absent. -/
def getSignByGloss (dataset : List SignRecord) (gloss : String) : Option SignRecord :=
  let normalized := jsUpper gloss
  dataset.find? (fun sign => sign.gloss == normalized || sign.id == jsLower normalized)

/-! ### pipeline.js — asset URL resolution and the Sign Sequence Builder -/

/-- The duck-typed shape `withAssetUrls` reads from its `sign` argument.
A `MatchResult` supplies a score; a raw `SignRecord` does not (its
`score` field is `undefined`, which `?? 0.4` defaults). -/
structure AssetView where
  gloss : String
  videoFile : Option String
  thumbnail : Option String
  durationMs : Option Nat
  score : Option ℝ

/-- View of a matcher result, as passed to `withAssetUrls`. -/
def MatchResult.toAssetView (m : MatchResult) : AssetView :=
  { gloss := m.gloss, videoFile := some m.videoFile, thumbnail := some m.thumbnail,
    durationMs := some m.durationMs, score := some m.score }

/-- View of a raw catalogue record, as passed to `withAssetUrls`. -/
def SignRecord.toAssetView (r : SignRecord) : AssetView :=
  { gloss := r.gloss, videoFile := some r.videoFile, thumbnail := some r.thumbnail,
    durationMs := some r.durationMs, score := none }

/-- `buildAssetUrl(fileName)` from pipeline.js, with the configured CDN
base URL made explicit.  `if (!fileName) return ''` covers both a
missing and an empty filename. -/
def buildAssetUrl (cdnBaseUrl : String) (fileName : Option String) : String :=
  match fileName with
  | none => ""
  | some f => if f = "" then "" else if jsStartsWith f "http" then f else cdnBaseUrl ++ f

/-- The resolved video descriptor (§3 ResolvedSign). -/
structure ResolvedSign where
  gloss : String
  requestedGloss : String
  score : ℝ
  videoUrl : String
  thumbnailUrl : String
  durationMs : Nat

/-- `withAssetUrls(requestedGloss, sign)` from pipeline.js; `sign` may be
`null`. -/
noncomputable def withAssetUrls (cdnBaseUrl : String) (requestedGloss : String)
    (sign : Option AssetView) : ResolvedSign :=
  { gloss := jsOrString (sign.map AssetView.gloss) requestedGloss,
    requestedGloss := requestedGloss,
    score := jsCoalesce (sign.bind AssetView.score) 0.4,
    videoUrl := buildAssetUrl cdnBaseUrl (sign.bind AssetView.videoFile),
    thumbnailUrl := buildAssetUrl cdnBaseUrl (sign.bind AssetView.thumbnail),
    durationMs := jsOrNat (sign.bind AssetView.durationMs) 2000 }

/-- `Map.prototype.get` on the match index built by `buildSequence`
(`new Map(matches.map(m => [m.gloss, m]))`): for duplicate keys the last
entry wins. -/
def mapGet (entries : List (String × MatchResult)) (k : String) : Option MatchResult :=
  entries.foldl (fun acc p => if p.1 = k then some p.2 else acc) none

/-- `SignPipeline.resolveVideo(gloss, lookup)`: match index first (token
verbatim, then uppercased), then the catalogue, then the default sign
`HELLO`. -/
noncomputable def resolveVideo (cdnBaseUrl : String) (dataset : List SignRecord)
    (lookup : List (String × MatchResult)) (gloss : String) : ResolvedSign :=
  match (mapGet lookup gloss).orElse (fun _ => mapGet lookup (jsUpper gloss)) with
  | some existing => withAssetUrls cdnBaseUrl gloss (some existing.toAssetView)
  | none =>
    match getSignByGloss dataset gloss with
    | some fallbackSign => withAssetUrls cdnBaseUrl gloss (some fallbackSign.toAssetView)
    | none => withAssetUrls cdnBaseUrl gloss ((getSignByGloss dataset "HELLO").map SignRecord.toAssetView)

/-- Output of `SignPipeline.buildSequence`. -/
structure BuildResult where
  sequence : List String
  videos : List ResolvedSign
  provider : String

/-- `SignPipeline.buildSequence({glossSequence, keywords})`: search on
the deduplicated union of keywords and lowercased gloss tokens, index
the matches by gloss, and resolve every token of the input sequence in
order.  The provider tag tests `lookup.size`, the number of distinct
keys of the match index. -/
noncomputable def buildSequence (cdnBaseUrl : String) (dataset : List SignRecord)
    (glossSequence : List String) (keywords : List String) : BuildResult :=
  let found := searchByKeywords dataset
    (dedupKeepFirst (keywords ++ glossSequence.map jsLower)) 8
  let lookup := found.map (fun m => (m.gloss, m))
  let videos := glossSequence.map (fun gloss => resolveVideo cdnBaseUrl dataset lookup gloss)
  { sequence := videos.map ResolvedSign.gloss,
    videos := videos,
    provider := if (dedupKeepFirst (lookup.map Prod.fst)).length ≠ 0 then "qdrant" else "fallback" }

/-! ### config.js and geminiClient.js — the Transcription Service Adapter

The adapter is embedded as a total function over an explicit outcome
environment: the result (or failure) of the local STT fetch together
with its arrival time, and the result (or failure) of the cloud call.
Timing is discrete: the abort timer fires iff the local response would
arrive no earlier than the configured threshold.
-/

/-- `localStt` section of config.js. -/
structure LocalSttConfig where
  enabled : Bool
  url : String
  timeoutMs : Nat

/-- `gemini` section of config.js. -/
structure GeminiConfig where
  apiKey : String
  speechModel : String
  textModel : String

/-- `pipeline` section of config.js. -/
structure PipelineConfig where
  fallbackLocale : String
  cdnBaseUrl : String

/-- The configuration object of config.js. -/
structure Config where
  localStt : LocalSttConfig
  gemini : GeminiConfig
  pipeline : PipelineConfig

/-- `Number(process.env.LOCAL_STT_TIMEOUT_MS) || 5000` from config.js:
an unset (or unparsable, hence NaN) or zero environment value falls back
to 5000. -/
def resolveTimeoutMs (envValue : Option Nat) : Nat :=
  jsOrNat envValue 5000

/-- §3 TranscriptionResult. -/
structure TranscriptionResult where
  text : String
  locale : String
  confidence : ℝ
  provider : String

/-- The response of the local STT `fetch`, with its parsed JSON body. -/
structure FetchResponse where
  ok : Bool
  status : Nat
  text : Option String
  locale : Option String
  confidence : Option ℝ
  provider : Option String

/-- Outcomes of the two external transcription tiers for one request. -/
structure SttWorld where
  localDelayMs : Nat
  localOutcome : Except String FetchResponse
  geminiOutcome : Except String String

/-- The JavaScript idiom `x || d` for a possibly-absent number: 0 (and
NaN) fall back to `d`. -/
noncomputable def jsOrReal (x : Option ℝ) (d : ℝ) : ℝ :=
  match x with
  | none => d
  | some v => if v = 0 then d else v

/-- `GeminiClient.mockTranscription(locale)`: the fixed last-resort
transcript. -/
noncomputable def mockTranscription (cfg : Config) (locale : Option String) : TranscriptionResult :=
  { text := "hello everyone today we have a meeting",
    locale := jsOrString locale cfg.pipeline.fallbackLocale,
    confidence := 0.6,
    provider := "mock" }

/-- `GeminiClient.callLocalStt`: `setTimeout(() => controller.abort(),
config.localStt.timeoutMs)` aborts the in-flight fetch when the response
has not arrived before the threshold; a non-2xx status and a network
error are thrown, a 2xx body is read with `||` defaults. -/
noncomputable def callLocalStt (cfg : Config) (w : SttWorld) (locale : Option String) :
    Except String TranscriptionResult :=
  if cfg.localStt.timeoutMs ≤ w.localDelayMs then Except.error "AbortError"
  else
    match w.localOutcome with
    | Except.error e => Except.error e
    | Except.ok resp =>
      if !resp.ok then Except.error ("Local STT HTTP " ++ toString resp.status)
      else Except.ok
        { text := jsOrString resp.text "",
          locale := jsOrString resp.locale (jsOrString locale cfg.pipeline.fallbackLocale),
          confidence := jsOrReal resp.confidence 0.85,
          provider := jsOrString resp.provider "whisper" }

/-- `GeminiClient.transcribeAudio({audioBase64, mimeType, locale})`.
`mimeType` only decorates the outgoing requests and does not affect
control flow, so it is not a parameter here.  The missing-payload check
throws; each backend tier is wrapped in `try`/`catch` and falls through
to the next, ending at the mock transcript. -/
noncomputable def transcribeAudio (cfg : Config) (w : SttWorld) (audioBase64 : Option String)
    (locale : Option String) : Except String TranscriptionResult :=
  if jsFalsyString audioBase64 then Except.error "audioBase64 payload missing"
  else
    let localAttempt : Option TranscriptionResult :=
      if cfg.localStt.enabled then
        match callLocalStt cfg w locale with
        | Except.ok r => some r
        | Except.error _ => none
      else none
    match localAttempt with
    | some r => Except.ok r
    | none =>
      if cfg.gemini.apiKey = "" then Except.ok (mockTranscription cfg locale)
      else
        match w.geminiOutcome with
        | Except.ok transcript =>
          Except.ok
            { text := transcript.trim,
              locale := jsOrString locale cfg.pipeline.fallbackLocale,
              confidence := 0.82,
              provider := "gemini" }
        | Except.error _ => Except.ok (mockTranscription cfg locale)

/-! ### Spec-side definitions

Two definitions transcribe the specification text itself (not the
source), for refinement comparisons with the embedded code.
-/

/-- Transcribes the specification formula for the local-strategy score:
`0.7 * keywordOverlapCount + 0.15 * topicBoost + 0.3 *
cosineSimilarity(firstKeywordVector, recordEmbedding)` where
`keywordOverlapCount` is the count of query keywords present in the
record keyword set and `topicBoost` is `0.15` if any query keyword
matches a topic tag else `0`. -/
noncomputable def specFallbackScore (keywordSet : List String) (sign : SignRecord) : ℝ :=
  let overlap := (keywordSet.filter (fun q => sign.keywords.contains q)).length
  let topicBoost : ℝ := if sign.topics.any (fun topic => keywordSet.contains topic) then 0.15 else 0
  0.7 * (overlap : ℝ) + 0.15 * topicBoost
    + 0.3 * cosineSimilarity (keywordToVector (keywordSet.headD "")) sign.embedding

/-- One character of the tail of a URL scheme (RFC 3986: letters,
digits, plus, hyphen, dot). -/
def isSchemeTailChar (c : Char) : Bool :=
  c.isAlpha || c.isDigit || c = '+' || c = '-' || c = '.'

/-- Scans for the colon that ends a URL scheme. -/
def schemeTailEndsColon : List Char → Bool
  | [] => false
  | c :: rest => if c = ':' then true else isSchemeTailChar c && schemeTailEndsColon rest

/-- Transcribes the specification phrase "the filename starts with a URL
scheme (is already an absolute URL)": a letter followed by scheme
characters up to a colon, per RFC 3986. -/
def specStartsWithUrlScheme (s : String) : Bool :=
  match s.toList with
  | [] => false
  | c :: rest => c.isAlpha && schemeTailEndsColon rest

/-! ### Concrete fixtures

Small concrete records, configurations and worlds used to instantiate
the theorems below at specific inputs.
-/

/-- A catalogue record for the default sign `HELLO`, shaped like the
entry of `data/signGlosses.json`. -/
def helloRecord : SignRecord :=
  { id := "hello", gloss := "HELLO", keywords := ["hello", "hi"], topics := ["greetings"],
    embedding := [], videoFile := "hello.webm", thumbnail := "hello.jpg", durationMs := 1500 }

/-- A record whose only connection to the query is a topic tag. -/
def greetRecord : SignRecord :=
  { id := "greet", gloss := "GREET", keywords := [], topics := ["greetings"],
    embedding := [], videoFile := "greet.webm", thumbnail := "greet.jpg", durationMs := 1200 }

/-- The config.js defaults with no environment overrides: local STT
disabled, no cloud API key. -/
def cfgDefaultLike : Config :=
  { localStt := { enabled := false, url := "http://127.0.0.1:6000", timeoutMs := 5000 },
    gemini := { apiKey := "", speechModel := "gemini-2.0-flash", textModel := "gemini-2.0-flash" },
    pipeline := { fallbackLocale := "en-US",
                  cdnBaseUrl := "https://storage.googleapis.com/signflow-demo/signs/" } }

/-- The defaults with `LOCAL_STT_ENABLED=true`. -/
def cfgLocalEnabled : Config :=
  { cfgDefaultLike with
    localStt := { enabled := true, url := "http://127.0.0.1:6000", timeoutMs := 5000 } }

/-- A request during which both external tiers fail outright. -/
def worldDown : SttWorld :=
  { localDelayMs := 9000,
    localOutcome := Except.error "fetch failed",
    geminiOutcome := Except.error "network error" }

/-- A request during which the local endpoint would answer successfully,
but only at the 5000 ms mark — exactly when the abort timer fires. -/
def worldSlow : SttWorld :=
  { localDelayMs := 5000,
    localOutcome := Except.ok
      { ok := true, status := 200, text := some "late reply", locale := none,
        confidence := none, provider := some "whisper" },
    geminiOutcome := Except.error "network error" }

/-! ## Helper lemmas -/

theorem charToNat_inj {c d : Char} (h : c.toNat = d.toNat) : c = d := by
  have h2 := congrArg Char.ofNat h
  rwa [Char.ofNat_toNat, Char.ofNat_toNat] at h2

theorem resolveVideo_requestedGloss (cdnBaseUrl : String) (dataset : List SignRecord)
    (lookup : List (String × MatchResult)) (gloss : String) :
    (resolveVideo cdnBaseUrl dataset lookup gloss).requestedGloss = gloss := by
  unfold resolveVideo
  split
  · rfl
  · split
    · rfl
    · rfl

/-! ## Claims -/

/-- C1: for every input gloss sequence (and any keyword list, catalogue
and CDN base), `buildSequence` returns exactly one resolved entry per
token, in input order, and the i-th entry's `requestedGloss` is the i-th
input token: mapping `requestedGloss` over the output gives back the
input sequence. -/
theorem buildSequence_resolves_every_token (cdnBaseUrl : String) (dataset : List SignRecord)
    (glossSequence keywords : List String) :
    (buildSequence cdnBaseUrl dataset glossSequence keywords).videos.map
        ResolvedSign.requestedGloss = glossSequence ∧
    (buildSequence cdnBaseUrl dataset glossSequence keywords).videos.length
      = glossSequence.length := by
  have hmap : (buildSequence cdnBaseUrl dataset glossSequence keywords).videos.map
      ResolvedSign.requestedGloss = glossSequence := by
    unfold buildSequence
    simp only [List.map_map]
    have h : ∀ g : String,
        (ResolvedSign.requestedGloss ∘ fun gloss =>
          resolveVideo cdnBaseUrl dataset
            ((searchByKeywords dataset
              (dedupKeepFirst (keywords ++ glossSequence.map jsLower)) 8).map
                (fun m => (m.gloss, m))) gloss) g = g := by
      intro g
      exact resolveVideo_requestedGloss _ _ _ _
    calc glossSequence.map _ = glossSequence.map id := List.map_congr_left fun g _ => h g
    _ = glossSequence := List.map_id _
  refine ⟨hmap, ?_⟩
  have := congrArg List.length hmap
  simpa using this

/-- C4: when the match index misses a token both verbatim and uppercased
and the catalogue lookup also misses it, `resolveVideo` substitutes the
designated default sign, so the resolved gloss is `HELLO` while
`requestedGloss` stays the original token. -/
theorem resolveVideo_default_is_HELLO (cdnBaseUrl : String) (dataset : List SignRecord)
    (lookup : List (String × MatchResult)) (tok : String) (d : SignRecord)
    (h1 : mapGet lookup tok = none) (h2 : mapGet lookup (jsUpper tok) = none)
    (h3 : getSignByGloss dataset tok = none)
    (h4 : getSignByGloss dataset "HELLO" = some d) (h5 : d.gloss = "HELLO") :
    (resolveVideo cdnBaseUrl dataset lookup tok).gloss = "HELLO" ∧
    (resolveVideo cdnBaseUrl dataset lookup tok).requestedGloss = tok := by
  unfold resolveVideo
  rw [h1, h2, h3, h4]
  constructor
  · simp [Option.orElse, withAssetUrls, SignRecord.toAssetView, jsOrString, h5]
  · simp [Option.orElse, withAssetUrls]

/-- Closed instance of the C4 theorem: the token `XYZ` is absent from an
empty match index and from a catalogue holding only the `HELLO` record,
and resolves to gloss `HELLO` with `requestedGloss` `XYZ`. -/
theorem resolveVideo_default_is_HELLO_witness :
    (resolveVideo "https://cdn.example/signs/" [helloRecord] [] "XYZ").gloss = "HELLO" ∧
    (resolveVideo "https://cdn.example/signs/" [helloRecord] [] "XYZ").requestedGloss = "XYZ" :=
  resolveVideo_default_is_HELLO "https://cdn.example/signs/" [helloRecord] [] "XYZ"
    helloRecord rfl rfl rfl rfl rfl

/-- C10: when even the default sign is absent from the catalogue,
`resolveVideo` still returns a structurally complete entry: the gloss
falls back to the requested token, the score to 0.4, both asset URLs are
empty and the duration defaults to 2000 ms. -/
theorem resolveVideo_total_without_default (cdnBaseUrl : String) (dataset : List SignRecord)
    (lookup : List (String × MatchResult)) (tok : String)
    (h1 : mapGet lookup tok = none) (h2 : mapGet lookup (jsUpper tok) = none)
    (h3 : getSignByGloss dataset tok = none)
    (h4 : getSignByGloss dataset "HELLO" = none) :
    resolveVideo cdnBaseUrl dataset lookup tok =
      { gloss := tok, requestedGloss := tok, score := 0.4,
        videoUrl := "", thumbnailUrl := "", durationMs := 2000 } := by
  unfold resolveVideo
  rw [h1, h2, h3, h4]
  rfl

/-- Closed instance of the C10 theorem on the empty catalogue. -/
theorem resolveVideo_total_without_default_witness :
    resolveVideo "https://cdn.example/signs/" [] [] "xyz" =
      { gloss := "xyz", requestedGloss := "xyz", score := 0.4,
        videoUrl := "", thumbnailUrl := "", durationMs := 2000 } :=
  resolveVideo_total_without_default "https://cdn.example/signs/" [] [] "xyz"
    rfl rfl rfl rfl

/-- C6 fails as stated: `buildAssetUrl` tests the literal prefix `http`,
not the presence of a URL scheme.  A filename with the scheme `ftp:` is
an absolute URL, yet it is not returned unchanged — the CDN base is
prepended. -/
theorem buildAssetUrl_scheme_counterexample :
    specStartsWithUrlScheme "ftp://assets.example/hello.webm" = true ∧
    buildAssetUrl "https://cdn.example/signs/" (some "ftp://assets.example/hello.webm")
      ≠ "ftp://assets.example/hello.webm" := by
  constructor
  · decide
  · decide

/-- C6 (amended): for every non-empty filename, `buildAssetUrl` returns
the filename unchanged iff it starts with the literal prefix `http`, and
otherwise prepends the CDN base; in particular `hello.webm` resolves
under the example CDN base. -/
theorem buildAssetUrl_http_literal (cdnBaseUrl f : String) (h : f ≠ "") :
    (jsStartsWith f "http" = true → buildAssetUrl cdnBaseUrl (some f) = f) ∧
    (jsStartsWith f "http" = false → buildAssetUrl cdnBaseUrl (some f) = cdnBaseUrl ++ f) ∧
    buildAssetUrl "https://cdn.example/signs/" (some "hello.webm")
      = "https://cdn.example/signs/hello.webm" := by
  refine ⟨?_, ?_, by decide⟩
  · intro hs
    simp only [buildAssetUrl]
    rw [if_neg h, if_pos hs]
  · intro hs
    simp only [buildAssetUrl]
    rw [if_neg h, if_neg]
    simp [hs]

/-- Closed instance of the amended C6 theorem at `hello.webm`. -/
theorem buildAssetUrl_http_literal_witness :
    buildAssetUrl "https://cdn.example/signs/" (some "hello.webm")
      = "https://cdn.example/signs/" ++ "hello.webm" :=
  (buildAssetUrl_http_literal "https://cdn.example/signs/" "hello.webm" (by decide)).2.1
    (by decide)

theorem extractLoop_shape (limit : Nat) : ∀ (ts acc : List String),
    ∃ ext, extractLoop limit ts acc = acc ++ ext ∧ ext.Sublist ts ∧
      (∀ k ∈ ext, STOPWORDS.contains k = false ∧ k ∉ acc) ∧ ext.Nodup := by
  intro ts
  induction ts with
  | nil =>
    intro acc
    exact ⟨[], by simp [extractLoop], List.nil_sublist _, by simp, List.nodup_nil⟩
  | cons tok rest ih =>
    intro acc
    by_cases hstop : tok ∈ STOPWORDS
    · obtain ⟨ext, he, hs, hk, hn⟩ := ih acc
      exact ⟨ext, by simpa [extractLoop, hstop] using he, hs.cons tok, hk, hn⟩
    · by_cases hmem : tok ∈ acc
      · by_cases hlim : limit ≤ acc.length
        · exact ⟨[], by simp [extractLoop, hstop, hmem, hlim], List.nil_sublist _,
            by simp, List.nodup_nil⟩
        · obtain ⟨ext, he, hs, hk, hn⟩ := ih acc
          exact ⟨ext, by simpa [extractLoop, hstop, hmem, hlim] using he, hs.cons tok, hk, hn⟩
      · by_cases hlim : limit ≤ acc.length + 1
        · refine ⟨[tok], by simp [extractLoop, hstop, hmem, hlim], ?_, ?_, List.nodup_singleton tok⟩
          · exact (List.nil_sublist rest).cons₂ tok
          · intro k hkm
            have hk1 : k = tok := by simpa using hkm
            subst hk1
            exact ⟨by simpa using hstop, hmem⟩
        · obtain ⟨ext, he, hs, hk, hn⟩ := ih (acc ++ [tok])
          refine ⟨tok :: ext, ?_, hs.cons₂ tok, ?_, ?_⟩
          · have hstep : extractLoop limit (tok :: rest) acc
                = extractLoop limit rest (acc ++ [tok]) := by
              simp [extractLoop, hstop, hmem, hlim]
            rw [hstep, he, List.append_assoc]
            rfl
          · intro k hkm
            rcases List.mem_cons.mp hkm with rfl | hkm2
            · exact ⟨by simpa using hstop, hmem⟩
            · obtain ⟨hk1, hk2⟩ := hk k hkm2
              exact ⟨hk1, fun hacc => hk2 (List.mem_append_left _ hacc)⟩
          · rw [List.nodup_cons]
            refine ⟨fun hin => ?_, hn⟩
            exact (hk tok hin).2 (List.mem_append_right _ (List.mem_singleton.mpr rfl))

theorem extractLoop_length (limit : Nat) : ∀ (ts acc : List String),
    acc.length < limit → (extractLoop limit ts acc).length ≤ limit := by
  intro ts
  induction ts with
  | nil => intro acc h; simpa [extractLoop] using h.le
  | cons tok rest ih =>
    intro acc h
    by_cases hstop : tok ∈ STOPWORDS
    · simpa [extractLoop, hstop] using ih acc h
    · by_cases hmem : tok ∈ acc
      · by_cases hlim : limit ≤ acc.length
        · exact absurd hlim (Nat.not_le.mpr h)
        · simpa [extractLoop, hstop, hmem, hlim] using ih acc h
      · by_cases hlim : limit ≤ acc.length + 1
        · have hres : extractLoop limit (tok :: rest) acc = acc ++ [tok] := by
            simp [extractLoop, hstop, hmem, hlim]
          rw [hres]
          simp only [List.length_append, List.length_singleton]
          omega
        · have hres : extractLoop limit (tok :: rest) acc
              = extractLoop limit rest (acc ++ [tok]) := by
            simp [extractLoop, hstop, hmem, hlim]
          rw [hres]
          refine ih (acc ++ [tok]) ?_
          simp only [List.length_append, List.length_singleton]
          omega

/-- C7 fails as stated for `limit = 0`: the length test of the loop runs
only after a token has been pushed, so the first non-stopword token is
always kept and the result has one element, not at most zero. -/
theorem extractKeywords_limit_zero_counterexample :
    extractKeywords "hello" 0 = ["hello"] ∧ ¬((extractKeywords "hello" 0).length ≤ 0) := by
  constructor
  · decide
  · decide

/-- C7 (amended): for every text and every limit of at least 1,
`extractKeywords` returns at most `limit` tokens, with no duplicates and
no stopwords, and the result is a subsequence (first-seen order) of the
whitespace tokens of the normalized text. -/
theorem extractKeywords_bounded (text : String) (limit : Nat) (h : 1 ≤ limit) :
    (extractKeywords text limit).length ≤ limit ∧
    (extractKeywords text limit).Nodup ∧
    (∀ k ∈ extractKeywords text limit, STOPWORDS.contains k = false) ∧
    (extractKeywords text limit).Sublist (tokensOf text) := by
  obtain ⟨ext, he, hs, hk, hn⟩ := extractLoop_shape limit (tokensOf text) []
  have hlen := extractLoop_length limit (tokensOf text) [] (by simpa using h)
  unfold extractKeywords
  rw [he] at hlen ⊢
  simp only [List.nil_append] at hlen ⊢
  exact ⟨hlen, hn, fun k hkm => (hk k hkm).1, hs⟩

/-- Closed instance of the amended C7 theorem at the default limit. -/
theorem extractKeywords_bounded_witness :
    (extractKeywords "hello everyone today we have a meeting" 12).length ≤ 12 ∧
    (extractKeywords "hello everyone today we have a meeting" 12).Nodup ∧
    (∀ k ∈ extractKeywords "hello everyone today we have a meeting" 12,
      STOPWORDS.contains k = false) ∧
    (extractKeywords "hello everyone today we have a meeting" 12).Sublist
      (tokensOf "hello everyone today we have a meeting") :=
  extractKeywords_bounded "hello everyone today we have a meeting" 12 (by decide)

/-- C3: with a non-empty audio payload `transcribeAudio` never raises:
whatever the outcomes of the local tier and the cloud tier, it returns a
result.  The only error it can ever produce is the missing-payload
precondition violation, raised exactly when the payload is absent
(missing or empty). -/
theorem transcribeAudio_absorbs_failures (cfg : Config) (w : SttWorld) (s : String)
    (locale : Option String) (h : s ≠ "") :
    (∃ r, transcribeAudio cfg w (some s) locale = Except.ok r) ∧
    (∀ audio, jsFalsyString audio = true →
      transcribeAudio cfg w audio locale = Except.error "audioBase64 payload missing") ∧
    (∀ audio e, transcribeAudio cfg w audio locale = Except.error e →
      e = "audioBase64 payload missing" ∧ jsFalsyString audio = true) := by
  refine ⟨?_, ?_, ?_⟩
  · unfold transcribeAudio
    rw [if_neg (by simp [jsFalsyString, h])]
    repeat' split
    all_goals exact ⟨_, rfl⟩
  · intro audio hf
    unfold transcribeAudio
    rw [if_pos hf]
  · intro audio e he
    by_cases hf : jsFalsyString audio = true
    · unfold transcribeAudio at he
      rw [if_pos hf] at he
      injection he with h2
      exact ⟨h2.symm, hf⟩
    · exfalso
      unfold transcribeAudio at he
      rw [if_neg hf] at he
      repeat' split at he
      all_goals simp at he

/-- Closed instance of the C3 theorem: with local STT disabled, no cloud
key, and both external tiers failing, a non-empty payload still gets a
result. -/
theorem transcribeAudio_absorbs_failures_witness :
    ("UklGRiQ" : String) ≠ "" ∧
    (∃ r, transcribeAudio cfgDefaultLike worldDown (some "UklGRiQ") none = Except.ok r) :=
  ⟨by decide, (transcribeAudio_absorbs_failures cfgDefaultLike worldDown "UklGRiQ" none
    (by decide)).1⟩

/-- C5: the local STT attempt runs under the configured timeout (default
5000 ms, from `LOCAL_STT_TIMEOUT_MS`): when the response would arrive no
earlier than the threshold, the abort timer fires and the call fails
with an abort error, and `transcribeAudio` behaves exactly as if the
local tier were disabled — it falls through rather than propagate. -/
theorem callLocalStt_timeout_falls_through (cfg : Config) (w : SttWorld)
    (audio locale : Option String)
    (henabled : cfg.localStt.enabled = true)
    (hlate : cfg.localStt.timeoutMs ≤ w.localDelayMs) :
    callLocalStt cfg w locale = Except.error "AbortError" ∧
    transcribeAudio cfg w audio locale =
      transcribeAudio { cfg with localStt := { cfg.localStt with enabled := false } } w
        audio locale ∧
    resolveTimeoutMs none = 5000 ∧
    (∀ n, n ≠ 0 → resolveTimeoutMs (some n) = n) := by
  have habort : callLocalStt cfg w locale = Except.error "AbortError" := by
    unfold callLocalStt
    rw [if_pos hlate]
  refine ⟨habort, ?_, rfl, ?_⟩
  · simp [transcribeAudio, henabled, habort, mockTranscription]
  · intro n hn
    simp [resolveTimeoutMs, jsOrNat, hn]

/-- Closed instance of the C5 theorem: with the default 5000 ms timeout
and a local response that would arrive exactly at the 5000 ms mark, the
local call aborts and the adapter still returns a result. -/
theorem callLocalStt_timeout_falls_through_witness :
    cfgLocalEnabled.localStt.enabled = true ∧
    cfgLocalEnabled.localStt.timeoutMs ≤ worldSlow.localDelayMs ∧
    callLocalStt cfgLocalEnabled worldSlow none = Except.error "AbortError" ∧
    transcribeAudio cfgLocalEnabled worldSlow (some "UklGRiQ") none =
      transcribeAudio
        { cfgLocalEnabled with
          localStt := { cfgLocalEnabled.localStt with enabled := false } } worldSlow
        (some "UklGRiQ") none :=
  ⟨rfl, by decide,
    (callLocalStt_timeout_falls_through cfgLocalEnabled worldSlow (some "UklGRiQ") none
      rfl (by decide)).1,
    (callLocalStt_timeout_falls_through cfgLocalEnabled worldSlow (some "UklGRiQ") none
      rfl (by decide)).2.1⟩

theorem dedupKeepFirst_nodup (l : List String) : (dedupKeepFirst l).Nodup := by
  suffices h : ∀ acc : List String, acc.Nodup →
      (l.foldl (fun acc k => if acc.contains k then acc else acc ++ [k]) acc).Nodup by
    exact h [] List.nodup_nil
  induction l with
  | nil => intro acc ha; simpa using ha
  | cons x xs ih =>
    intro acc ha
    simp only [List.foldl_cons]
    by_cases hx : x ∈ acc
    · rw [if_pos (by simpa [List.elem_iff] using hx)]
      exact ih acc ha
    · rw [if_neg (by simpa [List.elem_iff] using hx)]
      refine ih (acc ++ [x]) ?_
      simp [List.nodup_append, ha, hx]

theorem keywordSetOf_nodup (keywords : List String) : (keywordSetOf keywords).Nodup :=
  dedupKeepFirst_nodup _

theorem length_filter_contains_of_nodup (a b : List String) (ha : a.Nodup) :
    (a.filter (fun x => b.contains x)).length = (a.toFinset ∩ b.toFinset).card := by
  have h1 : (a.filter (fun x => b.contains x)).Nodup := ha.filter _
  rw [← List.toFinset_card_of_nodup h1]
  congr 1
  ext x
  simp [List.mem_filter, List.elem_iff, Finset.mem_inter]

theorem length_filter_contains_comm (a b : List String) (ha : a.Nodup) (hb : b.Nodup) :
    (a.filter (fun x => b.contains x)).length = (b.filter (fun x => a.contains x)).length := by
  rw [length_filter_contains_of_nodup a b ha, length_filter_contains_of_nodup b a hb,
    Finset.inter_comm]

/-- C2 fails as stated: the code adds the 0.15 topic boost directly
instead of multiplying it by 0.15 again.  On a record whose only
connection to the query is a topic tag, the code scores 0.15 while the
specification formula gives 0.15 * 0.15. -/
theorem fallbackScore_spec_counterexample :
    fallbackScore (keywordSetOf ["greetings"]) greetRecord = 0.15 ∧
    specFallbackScore (keywordSetOf ["greetings"]) greetRecord = 0.15 * 0.15 ∧
    fallbackScore (keywordSetOf ["greetings"]) greetRecord
      ≠ specFallbackScore (keywordSetOf ["greetings"]) greetRecord := by
  have hset : keywordSetOf ["greetings"] = ["greetings"] := rfl
  have hcos : cosineSimilarity (keywordToVector "greetings") greetRecord.embedding = 0 := by
    rw [show greetRecord.embedding = [] from rfl]
    simp [cosineSimilarity, truncTo, sumSq, dotProd]
  have ha : fallbackScore (keywordSetOf ["greetings"]) greetRecord = 0.15 := by
    rw [hset]
    unfold fallbackScore
    rw [show greetRecord.keywords = [] from rfl, show greetRecord.topics = ["greetings"] from rfl]
    norm_num [hcos]
  have hb : specFallbackScore (keywordSetOf ["greetings"]) greetRecord = 0.15 * 0.15 := by
    rw [hset]
    unfold specFallbackScore
    rw [show greetRecord.keywords = [] from rfl, show greetRecord.topics = ["greetings"] from rfl]
    norm_num [hcos]
  refine ⟨ha, hb, ?_⟩
  rw [ha, hb]
  norm_num

/-- C2 (amended): for a record whose keyword set is duplicate-free (the
catalogue invariant), the local-strategy score equals
`0.7 * keywordOverlapCount + topicBoost + 0.3 * cosineSimilarity
(firstKeywordVector, recordEmbedding)`, where `keywordOverlapCount` is
the number of query keywords present in the record keyword set and
`topicBoost` is 0.15 if any query keyword matches a topic tag else 0 —
the topic boost is added directly, not scaled by another 0.15. -/
theorem fallbackScore_eq_formula (keywords : List String) (sign : SignRecord)
    (h : sign.keywords.Nodup) :
    fallbackScore (keywordSetOf keywords) sign =
      0.7 * (((keywordSetOf keywords).filter (fun q => sign.keywords.contains q)).length : ℝ)
      + (if sign.topics.any (fun topic => (keywordSetOf keywords).contains topic)
          then (0.15 : ℝ) else 0)
      + 0.3 * cosineSimilarity (keywordToVector ((keywordSetOf keywords).headD ""))
          sign.embedding := by
  unfold fallbackScore
  rw [length_filter_contains_comm sign.keywords (keywordSetOf keywords) h
    (keywordSetOf_nodup keywords)]
  ring

/-- Closed instance of the amended C2 theorem on the `HELLO` record. -/
theorem fallbackScore_eq_formula_witness :
    helloRecord.keywords.Nodup ∧
    fallbackScore (keywordSetOf ["hello"]) helloRecord =
      0.7 * (((keywordSetOf ["hello"]).filter
          (fun q => helloRecord.keywords.contains q)).length : ℝ)
      + (if helloRecord.topics.any (fun topic => (keywordSetOf ["hello"]).contains topic)
          then (0.15 : ℝ) else 0)
      + 0.3 * cosineSimilarity (keywordToVector ((keywordSetOf ["hello"]).headD ""))
          helloRecord.embedding :=
  ⟨by decide, fallbackScore_eq_formula ["hello"] helloRecord (by decide)⟩

theorem sumSq_nonneg (l : List ℝ) : 0 ≤ sumSq l := by
  unfold sumSq
  refine List.sum_nonneg ?_
  intro x hx
  obtain ⟨y, _, rfl⟩ := List.mem_map.mp hx
  positivity

theorem cs_step (x y S A B : ℝ) (hA : 0 ≤ A) (hB : 0 ≤ B) (hIH : S ^ 2 ≤ A * B) :
    (x * y + S) ^ 2 ≤ (x ^ 2 + A) * (y ^ 2 + B) := by
  rcases eq_or_lt_of_le hA with hA0 | hApos
  · have hS : S = 0 := by nlinarith [sq_nonneg S]
    subst hS
    nlinarith [mul_nonneg (sq_nonneg x) hB, sq_nonneg (x * y)]
  · have key : 0 ≤ (x * S - A * y) ^ 2 + (x ^ 2 + A) * (A * B - S ^ 2) :=
      add_nonneg (sq_nonneg _)
        (mul_nonneg (by positivity) (sub_nonneg.mpr hIH))
    nlinarith [key, hApos, mul_pos hApos hApos]

theorem list_cauchy_schwarz : ∀ (a b : List ℝ), a.length = b.length →
    (dotProd a b) ^ 2 ≤ sumSq a * sumSq b := by
  intro a
  induction a with
  | nil =>
    intro b h
    simp [dotProd, sumSq]
  | cons x xs ih =>
    intro b h
    cases b with
    | nil => simp at h
    | cons y ys =>
      have hlen : xs.length = ys.length := by simpa using h
      have hIH := ih ys hlen
      have hA := sumSq_nonneg xs
      have hB := sumSq_nonneg ys
      simp only [dotProd, sumSq, List.zipWith_cons_cons, List.map_cons, List.sum_cons] at hIH hA hB ⊢
      exact cs_step x y _ _ _ hA hB hIH

theorem cosineSimilarity_eq (vecA vecB : List ℝ) :
    cosineSimilarity vecA vecB =
      if sumSq (truncTo vecA vecB) = 0 ∨ sumSq (truncTo vecB vecA) = 0 then 0
      else dotProd (truncTo vecA vecB) (truncTo vecB vecA) /
        (Real.sqrt (sumSq (truncTo vecA vecB)) * Real.sqrt (sumSq (truncTo vecB vecA))) :=
  rfl

/-- C9: `cosineSimilarity` is total and safe on every pair of vectors,
of equal length or not: its value always lies in `[-1, 1]` (in
particular it is a well-defined real number, never an error or NaN), and
whenever either truncated vector has zero norm — in particular for an
empty vector or a zero vector — it returns exactly 0. -/
theorem cosineSimilarity_safe (vecA vecB : List ℝ) (k : Nat) :
    -1 ≤ cosineSimilarity vecA vecB ∧ cosineSimilarity vecA vecB ≤ 1 ∧
    ((sumSq (truncTo vecA vecB) = 0 ∨ sumSq (truncTo vecB vecA) = 0) →
      cosineSimilarity vecA vecB = 0) ∧
    cosineSimilarity [] vecB = 0 ∧
    cosineSimilarity (List.replicate k 0) vecB = 0 := by
  have hbound : -1 ≤ cosineSimilarity vecA vecB ∧ cosineSimilarity vecA vecB ≤ 1 := by
    rw [cosineSimilarity_eq]
    by_cases hg : sumSq (truncTo vecA vecB) = 0 ∨ sumSq (truncTo vecB vecA) = 0
    · rw [if_pos hg]
      norm_num
    · rw [if_neg hg]
      push_neg at hg
      have hA0 : 0 < sumSq (truncTo vecA vecB) :=
        lt_of_le_of_ne (sumSq_nonneg _) (Ne.symm hg.1)
      have hB0 : 0 < sumSq (truncTo vecB vecA) :=
        lt_of_le_of_ne (sumSq_nonneg _) (Ne.symm hg.2)
      have hlen : (truncTo vecA vecB).length = (truncTo vecB vecA).length := by
        simp [truncTo, Nat.min_comm]
      have hCS := list_cauchy_schwarz (truncTo vecA vecB) (truncTo vecB vecA) hlen
      have hden : 0 < Real.sqrt (sumSq (truncTo vecA vecB)) *
          Real.sqrt (sumSq (truncTo vecB vecA)) :=
        mul_pos (Real.sqrt_pos.mpr hA0) (Real.sqrt_pos.mpr hB0)
      have habs : |dotProd (truncTo vecA vecB) (truncTo vecB vecA)| ≤
          Real.sqrt (sumSq (truncTo vecA vecB)) * Real.sqrt (sumSq (truncTo vecB vecA)) := by
        rw [← Real.sqrt_sq_eq_abs, ← Real.sqrt_mul hA0.le]
        exact Real.sqrt_le_sqrt hCS
      have habs2 : |dotProd (truncTo vecA vecB) (truncTo vecB vecA) /
          (Real.sqrt (sumSq (truncTo vecA vecB)) *
            Real.sqrt (sumSq (truncTo vecB vecA)))| ≤ 1 := by
        rw [abs_div, abs_of_pos hden]
        exact (div_le_one hden).mpr habs
      exact abs_le.mp habs2
  refine ⟨hbound.1, hbound.2, ?_, ?_, ?_⟩
  · intro h
    rw [cosineSimilarity_eq, if_pos h]
  · rw [cosineSimilarity_eq, if_pos]
    left
    simp [truncTo, sumSq]
  · rw [cosineSimilarity_eq, if_pos]
    left
    simp [truncTo, sumSq, List.take_replicate, List.map_replicate, List.sum_replicate]

/-- Closed instance of the C9 theorem: the zero vector paired with
`[3, 4]` has zero norm and cosine similarity 0. -/
theorem cosineSimilarity_safe_witness :
    sumSq (truncTo [(0 : ℝ), 0] [3, 4]) = 0 ∧ cosineSimilarity [(3 : ℝ), 4] [0, 0] = 0 := by
  have hz : sumSq (truncTo [(0 : ℝ), 0] [3, 4]) = 0 := by
    norm_num [truncTo, sumSq]
  exact ⟨hz, (cosineSimilarity_safe [(3 : ℝ), 4] [0, 0] 0).2.2.1 (Or.inr hz)⟩

theorem charToNat_ofNat (n : Nat) (h : n < 55296) : (Char.ofNat n).toNat = n := by
  rw [Char.ofNat, dif_pos (Or.inl h)]
  simp [Char.ofNatAux, Char.toNat, UInt32.toNat]

theorem toNat_jsToLower (c : Char) :
    (jsToLower c).toNat = if 65 ≤ c.toNat ∧ c.toNat ≤ 90 then c.toNat + 32 else c.toNat := by
  unfold jsToLower
  split
  · next h => exact charToNat_ofNat _ (by omega)
  · rfl

theorem isJsSpace_jsToLower (c : Char) : isJsSpace (jsToLower c) = isJsSpace c := by
  have h := toNat_jsToLower c
  by_cases hup : 65 ≤ c.toNat ∧ c.toNat ≤ 90
  · rw [if_pos hup] at h
    have h1 : isJsSpace (jsToLower c) = false := by
      simp only [isJsSpace, h, Bool.or_eq_false_iff, decide_eq_false_iff_not]
      omega
    have h2 : isJsSpace c = false := by
      simp only [isJsSpace, Bool.or_eq_false_iff, decide_eq_false_iff_not]
      omega
    rw [h1, h2]
  · rw [if_neg hup] at h
    simp [isJsSpace, h]

theorem isUpperAscii_jsToLower (c : Char) : isUpperAscii (jsToLower c) = false := by
  have h := toNat_jsToLower c
  by_cases hup : 65 ≤ c.toNat ∧ c.toNat ≤ 90
  · rw [if_pos hup] at h
    simp only [isUpperAscii, h, decide_eq_false_iff_not]
    omega
  · rw [if_neg hup] at h
    simp only [isUpperAscii, h, decide_eq_false_iff_not]
    exact hup

theorem isWordChar_jsToLower (c : Char) (hw : isWordChar c = true) :
    isWordChar (jsToLower c) = true := by
  have h := toNat_jsToLower c
  simp only [isWordChar, Bool.or_eq_true, decide_eq_true_eq] at hw ⊢
  by_cases hup : 65 ≤ c.toNat ∧ c.toNat ≤ 90
  · rw [if_pos hup] at h
    omega
  · rw [if_neg hup] at h
    omega

theorem jsToLower_fix (c : Char) (h : isUpperAscii c = false) : jsToLower c = c := by
  unfold jsToLower
  rw [if_neg]
  simpa [isUpperAscii] using h

theorem sanitizeChars_mem (l : List Char) :
    ∀ c ∈ sanitizeChars l,
      isWordChar c = true ∨ isJsSpace c = true ∨ c.toNat = 39 ∨ c.toNat = 45 := by
  intro c hc
  obtain ⟨d, _, rfl⟩ := List.mem_map.mp hc
  by_cases hg : (isWordChar d || isJsSpace d || decide (d.toNat = 39) ||
      decide (d.toNat = 45)) = true
  · rw [if_pos hg]
    simpa [Bool.or_eq_true, decide_eq_true_eq, or_assoc] using hg
  · rw [if_neg hg]
    right; left
    decide

theorem sanitizeChars_fix (l : List Char)
    (h : ∀ c ∈ l, (isWordChar c = true ∧ isUpperAscii c = false) ∨
      c.toNat = 39 ∨ c.toNat = 45 ∨ c = ' ') :
    sanitizeChars l = l := by
  unfold sanitizeChars
  induction l with
  | nil => rfl
  | cons c rest ih =>
    rw [List.map_cons]
    have hc : (isWordChar c || isJsSpace c || decide (c.toNat = 39) ||
        decide (c.toNat = 45)) = true := by
      rcases h c (List.mem_cons_self c rest) with ⟨hw, _⟩ | h39 | h45 | hsp
      · simp [hw]
      · simp [h39]
      · simp [h45]
      · subst hsp
        decide
    rw [if_pos hc, ih (fun d hd => h d (List.mem_cons_of_mem c hd))]

theorem collapseSpaces_mem (l : List Char) :
    ∀ c ∈ collapseSpaces l, c = ' ' ∨ (c ∈ l ∧ isJsSpace c = false) := by
  induction l with
  | nil => simp [collapseSpaces]
  | cons c₁ rest ih =>
    cases rest with
    | nil =>
      intro c hc
      by_cases hs : isJsSpace c₁ = true
      · simp only [collapseSpaces, hs, if_true, List.mem_singleton] at hc
        exact Or.inl hc
      · simp only [collapseSpaces, hs, if_false, List.mem_singleton, Bool.false_eq_true] at hc
        subst hc
        exact Or.inr ⟨List.mem_cons_self _ _, by simpa using hs⟩
    | cons c₂ rest₂ =>
      intro c hc
      simp only [collapseSpaces] at hc
      by_cases hb : (isJsSpace c₁ && isJsSpace c₂) = true
      · rw [if_pos hb] at hc
        rcases ih c hc with h | ⟨hm, hns⟩
        · exact Or.inl h
        · exact Or.inr ⟨List.mem_cons_of_mem _ hm, hns⟩
      · rw [if_neg hb] at hc
        rcases List.mem_cons.mp hc with rfl | hc2
        · by_cases hs1 : isJsSpace c₁ = true
          · rw [if_pos hs1]
            exact Or.inl rfl
          · rw [if_neg hs1]
            exact Or.inr ⟨List.mem_cons_self _ _, by simpa using hs1⟩
        · rcases ih c hc2 with h | ⟨hm, hns⟩
          · exact Or.inl h
          · exact Or.inr ⟨List.mem_cons_of_mem _ hm, hns⟩

theorem collapseSpaces_head_of_nonspace (c : Char) (rest : List Char)
    (h : isJsSpace c = false) : (collapseSpaces (c :: rest)).head? = some c := by
  cases rest with
  | nil => simp [collapseSpaces, h]
  | cons c₂ r => simp [collapseSpaces, h]

theorem collapseSpaces_chain (l : List Char) :
    List.Chain' (fun a b => ¬(isJsSpace a = true ∧ isJsSpace b = true)) (collapseSpaces l) := by
  induction l with
  | nil => simp [collapseSpaces]
  | cons c₁ rest ih =>
    cases rest with
    | nil =>
      by_cases hs : isJsSpace c₁ = true
      · simp [collapseSpaces, hs]
      · simp [collapseSpaces, hs]
    | cons c₂ rest₂ =>
      simp only [collapseSpaces]
      by_cases hb : (isJsSpace c₁ && isJsSpace c₂) = true
      · rw [if_pos hb]
        exact ih
      · rw [if_neg hb]
        rw [List.chain'_cons']
        refine ⟨?_, ih⟩
        intro y hy
        by_cases hs1 : isJsSpace c₁ = true
        · have hs2 : isJsSpace c₂ = false := by
            cases h2 : isJsSpace c₂
            · rfl
            · exact absurd (by rw [hs1, h2]; rfl) hb
          rw [collapseSpaces_head_of_nonspace c₂ rest₂ hs2] at hy
          have hyc : c₂ = y := by simpa using hy
          subst hyc
          rw [if_pos hs1]
          intro hcon
          rw [hs2] at hcon
          exact Bool.false_ne_true hcon.2
        · rw [if_neg hs1]
          intro hcon
          exact hs1 hcon.1

theorem collapseSpaces_fix (l : List Char)
    (hsp : ∀ c ∈ l, isJsSpace c = true → c = ' ')
    (hch : List.Chain' (fun a b => ¬(isJsSpace a = true ∧ isJsSpace b = true)) l) :
    collapseSpaces l = l := by
  induction l with
  | nil => rfl
  | cons c₁ rest ih =>
    cases rest with
    | nil =>
      by_cases hs : isJsSpace c₁ = true
      · have hc : c₁ = ' ' := hsp c₁ (List.mem_cons_self _ _) hs
        simp [collapseSpaces, hs, hc]
      · simp [collapseSpaces, hs]
    | cons c₂ rest₂ =>
      have hnotboth : ¬(isJsSpace c₁ = true ∧ isJsSpace c₂ = true) :=
        (List.chain'_cons.mp hch).1
      have hb : ¬((isJsSpace c₁ && isJsSpace c₂) = true) := by
        intro hcon
        exact hnotboth (by simpa [Bool.and_eq_true] using hcon)
      simp only [collapseSpaces]
      rw [if_neg hb]
      have htail : collapseSpaces (c₂ :: rest₂) = c₂ :: rest₂ :=
        ih (fun d hd hds => hsp d (List.mem_cons_of_mem _ hd) hds)
          (List.chain'_cons.mp hch).2
      rw [htail]
      by_cases hs1 : isJsSpace c₁ = true
      · rw [if_pos hs1, hsp c₁ (List.mem_cons_self _ _) hs1]
      · rw [if_neg hs1]

theorem dropWhile_head_false (p : Char → Bool) :
    ∀ (l : List Char) (c : Char), (l.dropWhile p).head? = some c → p c = false := by
  intro l
  induction l with
  | nil => intro c h; simp [List.dropWhile] at h
  | cons x xs ih =>
    intro c h
    rw [List.dropWhile_cons] at h
    by_cases hx : p x = true
    · rw [if_pos hx] at h
      exact ih c h
    · rw [if_neg hx] at h
      have hxc : x = c := by simpa using h
      subst hxc
      simpa using hx

theorem trimChars_prefix_dropWhile (l : List Char) :
    trimChars l <+: l.dropWhile isJsSpace := by
  obtain ⟨t, ht⟩ := List.dropWhile_suffix (l := (l.dropWhile isJsSpace).reverse) isJsSpace
  refine ⟨t.reverse, ?_⟩
  have h2 := congrArg List.reverse ht
  simpa [List.reverse_append] using h2

theorem trimChars_seg (l : List Char) : trimChars l <:+: l :=
  List.IsInfix.trans (List.IsPrefix.isInfix (trimChars_prefix_dropWhile l))
    (List.IsSuffix.isInfix (List.dropWhile_suffix isJsSpace))

theorem trimChars_head (l : List Char) (c : Char)
    (h : (trimChars l).head? = some c) : isJsSpace c = false := by
  obtain ⟨t2, ht2⟩ := trimChars_prefix_dropWhile l
  have hd : (l.dropWhile isJsSpace).head? = some c := by
    rw [← ht2]
    cases htr : trimChars l with
    | nil => rw [htr] at h; simp at h
    | cons x xs =>
      rw [htr] at h
      simpa using h
  exact dropWhile_head_false isJsSpace l c hd

theorem trimChars_last (l : List Char) (c : Char)
    (h : (trimChars l).getLast? = some c) : isJsSpace c = false := by
  unfold trimChars at h
  rw [List.getLast?_reverse] at h
  exact dropWhile_head_false isJsSpace _ c h

theorem trimChars_fix (l : List Char)
    (hh : ∀ c, l.head? = some c → isJsSpace c = false)
    (hl : ∀ c, l.getLast? = some c → isJsSpace c = false) : trimChars l = l := by
  have h1 : l.dropWhile isJsSpace = l := by
    cases l with
    | nil => rfl
    | cons x xs =>
      rw [List.dropWhile_cons, if_neg]
      rw [hh x rfl]
      simp
  unfold trimChars
  rw [h1]
  have h2 : l.reverse.dropWhile isJsSpace = l.reverse := by
    cases hrev : l.reverse with
    | nil => rfl
    | cons y ys =>
      rw [List.dropWhile_cons, if_neg]
      have hy : l.getLast? = some y := by
        rw [← List.head?_reverse, hrev]
        rfl
      rw [hl y hy]
      simp
  rw [h2, List.reverse_reverse]

theorem shape_space_eq (c : Char)
    (h : (isWordChar c = true ∧ isUpperAscii c = false) ∨
      c.toNat = 39 ∨ c.toNat = 45 ∨ c = ' ')
    (hs : isJsSpace c = true) : c = ' ' := by
  rcases h with ⟨hw, _⟩ | h39 | h45 | hsp
  · exfalso
    simp only [isWordChar, Bool.or_eq_true, decide_eq_true_eq] at hw
    simp only [isJsSpace, Bool.or_eq_true, decide_eq_true_eq] at hs
    omega
  · exfalso
    simp only [isJsSpace, Bool.or_eq_true, decide_eq_true_eq] at hs
    omega
  · exfalso
    simp only [isJsSpace, Bool.or_eq_true, decide_eq_true_eq] at hs
    omega
  · exact hsp

theorem normList_normalShape (l : List Char) : NormalShape (normList l) := by
  have hsan := sanitizeChars_mem l
  have hcsmem := collapseSpaces_mem (sanitizeChars l)
  have hcschain := collapseSpaces_chain (sanitizeChars l)
  have htchain :=
    List.Chain'.infix hcschain (trimChars_seg (collapseSpaces (sanitizeChars l)))
  have htsub := List.IsInfix.subset (trimChars_seg (collapseSpaces (sanitizeChars l)))
  unfold normList NormalShape
  refine ⟨?_, ?_, ?_, ?_⟩
  · intro c hc
    obtain ⟨d, hd, rfl⟩ := List.mem_map.mp hc
    have hdcs := htsub hd
    rcases hcsmem d hdcs with rfl | ⟨hm, hns⟩
    · right; right; right
      decide
    · rcases hsan d hm with hw | hs | h39 | h45
      · exact Or.inl ⟨isWordChar_jsToLower d hw, isUpperAscii_jsToLower d⟩
      · rw [hs] at hns
        exact absurd hns (by simp)
      · right; left
        rw [jsToLower_fix d (by simp only [isUpperAscii, decide_eq_false_iff_not]; omega)]
        exact h39
      · right; right; left
        rw [jsToLower_fix d (by simp only [isUpperAscii, decide_eq_false_iff_not]; omega)]
        exact h45
  · refine (List.chain'_map jsToLower).mpr ?_
    refine List.Chain'.imp ?_ htchain
    intro a b hab
    rw [isJsSpace_jsToLower, isJsSpace_jsToLower]
    exact hab
  · intro c hc
    unfold lowerChars at hc
    rw [List.head?_map] at hc
    obtain ⟨d, hd, rfl⟩ := Option.map_eq_some'.mp hc
    rw [isJsSpace_jsToLower]
    exact trimChars_head _ d hd
  · intro c hc
    unfold lowerChars at hc
    rw [List.getLast?_map] at hc
    obtain ⟨d, hd, rfl⟩ := Option.map_eq_some'.mp hc
    rw [isJsSpace_jsToLower]
    exact trimChars_last _ d hd

theorem normList_fix (l : List Char) (h : NormalShape l) : normList l = l := by
  obtain ⟨halpha, hchain, hhead, hlast⟩ := h
  unfold normList
  rw [sanitizeChars_fix l halpha]
  rw [collapseSpaces_fix l (fun c hc hs => shape_space_eq c (halpha c hc) hs) hchain]
  rw [trimChars_fix l hhead hlast]
  unfold lowerChars
  have hfix : ∀ c ∈ l, jsToLower c = c := by
    intro c hc
    rcases halpha c hc with ⟨_, hup⟩ | h39 | h45 | hsp
    · exact jsToLower_fix c hup
    · exact jsToLower_fix c (by simp only [isUpperAscii, decide_eq_false_iff_not]; omega)
    · exact jsToLower_fix c (by simp only [isUpperAscii, decide_eq_false_iff_not]; omega)
    · subst hsp
      decide
  calc l.map jsToLower = l.map id := List.map_congr_left hfix
  _ = l := List.map_id l

/-- C8: `normalizeSentence` is idempotent — normalizing an already
normalized sentence returns it unchanged, for every input string. -/
theorem normalizeSentence_idempotent (x : String) :
    normalizeSentence (normalizeSentence x) = normalizeSentence x := by
  unfold normalizeSentence
  show (⟨normList (normList x.toList)⟩ : String) = ⟨normList x.toList⟩
  exact congrArg _ (normList_fix _ (normList_normalShape _))

end SignFlow
